import Mathlib

/-!
Verification of the minigo dual-net evaluator core (`src/cc/dual_net/dual_net.h`).

The repository ships only the header `cc/dual_net/dual_net.h`; the member
function bodies (`dual_net.cc`), the random generator (`cc/random.h`), the
symmetry transforms (`cc/symmetries.h`) and the board constants
(`cc/constants.h`) are declared or referenced there but their definitions are
not part of the sources.  Constants and signatures below are taken from the
header; absent bodies are modelled from the specification and are marked
`Modelled from the spec:` in their doc comments.

The board side length `kN` (from the absent `cc/constants.h`) is kept as an
explicit parameter `n`.  C++ `float` feature scalars only ever hold the exact
values 0.0 and 1.0 here, so they are embedded as rationals; `uint64_t` is
embedded as `Nat` reduced modulo `2 ^ 64`.
-/

namespace minigo

/-- A stone colour; `Position::Stones` cell contents are modelled as
`Option Color`, with `none` for an empty point. -/
inductive Color
  | black
  | white
deriving DecidableEq, Repr

/-- The opposing colour. -/
def Color.opponent : Color → Color
  | Color.black => Color.white
  | Color.white => Color.black

/-- One immutable board snapshot: the stone occupancy of each point of an
`n × n` board (`Position::Stones`, treated as opaque per-cell state). -/
abbrev Board (n : Nat) := Fin n → Fin n → Option Color

/-- The all-empty board. -/
def emptyBoard (n : Nat) : Board n := fun _ _ => none

/-- Size of move history in the stone features (`DualNet::kMoveHistory`). -/
def DualNet.kMoveHistory : Nat := 8

/-- Number of features per stone (`DualNet::kNumStoneFeatures = kMoveHistory * 2 + 1`). -/
def DualNet.kNumStoneFeatures : Nat := DualNet.kMoveHistory * 2 + 1

/-- Index of the per-stone feature that describes whether the black or white
player is to play next (`DualNet::kPlayerFeature = kMoveHistory * 2`). -/
def DualNet.kPlayerFeature : Nat := DualNet.kMoveHistory * 2

/-- Total number of features for the board
(`DualNet::kNumBoardFeatures = kN * kN * kNumStoneFeatures`), with the board
side `kN` kept as the parameter `n`. -/
def DualNet.kNumBoardFeatures (n : Nat) : Nat := n * n * DualNet.kNumStoneFeatures

/-- The history snapshot used for time slot `t`: `history` is ordered most
recent first, and slots beyond the provided window are padded with the empty
board rather than failing. -/
def boardAt {n : Nat} (history : List (Board n)) (t : Nat) : Board n :=
  history.getD t (emptyBoard n)

/-- The pair of occupancy indicator scalars emitted for one cell and one
history slot `t`: 1 if the cell holds a stone of the player to play in that
slot, then 1 if it holds a stone of the opponent, 0 otherwise for each. -/
def stonePair {n : Nat} (history : List (Board n)) (to_play : Color)
    (i j : Fin n) (t : Nat) : List ℚ :=
  [if boardAt history t i j = some to_play then 1 else 0,
   if boardAt history t i j = some to_play.opponent then 1 else 0]

/-- Modelled from the spec: the per-cell feature vector of
`DualNet::SetFeatures` (body in the absent `dual_net.cc`), following the
header comment `[X_t, Y_t, X_t-1, Y_t-1, ..., X_t-7, Y_t-7, C]`: the
mine/opponent pair for each of the `kMoveHistory` most recent snapshots, then
one trailing constant scalar equal to 1 iff black is to play. -/
def stoneFeatures {n : Nat} (history : List (Board n)) (to_play : Color)
    (i j : Fin n) : List ℚ :=
  ((List.range DualNet.kMoveHistory).map (stonePair history to_play i j)).flatten
    ++ [if to_play = Color.black then 1 else 0]

/-- The board cells in row-major order. -/
def cellList (n : Nat) : List (Fin n × Fin n) :=
  ((List.finRange n).map (fun i => (List.finRange n).map (fun j => (i, j)))).flatten

/-- Modelled from the spec: `DualNet::SetFeatures` (body in the absent
`dual_net.cc`): the flattened `BoardFeatures` tensor, the concatenation of
every cell's `stoneFeatures` in row-major cell order. -/
def DualNet.SetFeatures {n : Nat} (history : List (Board n)) (to_play : Color) :
    List ℚ :=
  ((cellList n).map (fun p => stoneFeatures history to_play p.1 p.2)).flatten

theorem stonePair_length {n : Nat} (history : List (Board n)) (to_play : Color)
    (i j : Fin n) (t : Nat) : (stonePair history to_play i j t).length = 2 := rfl

theorem stoneFeatures_length {n : Nat} (history : List (Board n)) (to_play : Color)
    (i j : Fin n) : (stoneFeatures history to_play i j).length = DualNet.kNumStoneFeatures := rfl

theorem cellList_length (n : Nat) : (cellList n).length = n * n := by
  simp [cellList, List.length_flatten, List.map_map, Function.comp_def,
    List.map_const', List.sum_replicate, smul_eq_mul, Nat.mul_comm]

namespace symmetry

/-- Modelled from the spec: the fixed finite set of board symmetries of the
absent `cc/symmetries.h` — the eight elements of the dihedral group of the
square (identity, rotations, and flips), named as in the source header's
`symmetry::Symmetry`. -/
inductive Symmetry
  | kIdentity
  | kRot90
  | kRot180
  | kRot270
  | kFlip
  | kFlipRot90
  | kFlipRot180
  | kFlipRot270
deriving DecidableEq, Repr

/-- Number of symmetries in the fixed set. -/
def kNumSymmetries : Nat := 8

/-- The symmetry selected by an integer draw: the draw is reduced modulo
`kNumSymmetries`, so a uniform integer draw selects uniformly. -/
def ofNat (k : Nat) : Symmetry :=
  match k % kNumSymmetries with
  | 0 => Symmetry.kIdentity
  | 1 => Symmetry.kRot90
  | 2 => Symmetry.kRot180
  | 3 => Symmetry.kRot270
  | 4 => Symmetry.kFlip
  | 5 => Symmetry.kFlipRot90
  | 6 => Symmetry.kFlipRot180
  | _ => Symmetry.kFlipRot270

/-- The inverse element of each symmetry: rotations by 90 and 270 degrees are
mutually inverse, every other element is an involution. -/
def inverse : Symmetry → Symmetry
  | Symmetry.kIdentity => Symmetry.kIdentity
  | Symmetry.kRot90 => Symmetry.kRot270
  | Symmetry.kRot180 => Symmetry.kRot180
  | Symmetry.kRot270 => Symmetry.kRot90
  | Symmetry.kFlip => Symmetry.kFlip
  | Symmetry.kFlipRot90 => Symmetry.kFlipRot90
  | Symmetry.kFlipRot180 => Symmetry.kFlipRot180
  | Symmetry.kFlipRot270 => Symmetry.kFlipRot270

/-- Modelled from the spec: the coordinate transform of each symmetry on an
`n × n` grid (`Fin.rev` reverses a coordinate, `i ↦ n - 1 - i`). -/
def coordT {n : Nat} : Symmetry → Fin n × Fin n → Fin n × Fin n
  | Symmetry.kIdentity, p => p
  | Symmetry.kRot90, p => (p.2, p.1.rev)
  | Symmetry.kRot180, p => (p.1.rev, p.2.rev)
  | Symmetry.kRot270, p => (p.2.rev, p.1)
  | Symmetry.kFlip, p => (p.1, p.2.rev)
  | Symmetry.kFlipRot90, p => (p.2.rev, p.1.rev)
  | Symmetry.kFlipRot180, p => (p.1.rev, p.2)
  | Symmetry.kFlipRot270, p => (p.2, p.1)

/-- Modelled from the spec: `symmetry::ApplySymmetry` of the absent
`cc/symmetries.h`, acting on any per-cell grid (the per-cell feature vectors
of a `BoardFeatures` tensor, or a board-indexed policy). -/
def ApplySymmetry {n : Nat} {α : Type} (s : Symmetry) (g : Fin n → Fin n → α) :
    Fin n → Fin n → α :=
  fun i j => g (coordT s (i, j)).1 (coordT s (i, j)).2

/-- Inverting a symmetry on an output grid applies the inverse element. -/
def InvertSymmetry {n : Nat} {α : Type} (s : Symmetry) (g : Fin n → Fin n → α) :
    Fin n → Fin n → α :=
  ApplySymmetry (inverse s) g

theorem coordT_inverse {n : Nat} (s : Symmetry) (p : Fin n × Fin n) :
    coordT s (coordT (inverse s) p) = p := by
  cases s <;> simp [coordT, inverse, Fin.rev_rev]

end symmetry

/-- Modelled from the spec: the seeded pseudo-random generator of the absent
`cc/random.h` (`minigo::Random`).  Its state is one 64-bit word; drawing
advances the state by one step of a linear-congruential map and returns the
new state as the drawn value.  The concrete multiplier is a modelling choice:
the spec fixes only that the stream is determined by the state. -/
structure Random where
  state : Nat
deriving DecidableEq, Repr

/-- Modelled from the spec: constructing a `Random` from a 64-bit seed; the
reserved zero seed draws the initial state from a platform entropy source,
modelled as the explicit `entropy` argument, which a non-zero seed ignores. -/
def Random.create (seed entropy : Nat) : Random :=
  if seed = 0 then ⟨entropy % 2 ^ 64⟩ else ⟨seed % 2 ^ 64⟩

/-- One draw from the generator: the new state, kept inside 64 bits, is also
the drawn value. -/
def Random.next (r : Random) : Nat × Random :=
  let s := (6364136223846793005 * r.state + 1442695040888963407) % 2 ^ 64
  (s, ⟨s⟩)

/-- The stream of values drawn by repeated calls: `stream r k` is the value of
the `k`-th draw after state `r`. -/
def Random.stream (r : Random) : Nat → Nat
  | 0 => r.next.1
  | k + 1 => r.next.2.stream k

/-- One inference input (`Model::Input` of the absent `cc/model/model.h`):
a history window of board snapshots, most recent first, and the colour to
play. -/
structure Input (n : Nat) where
  history : List (Board n)
  to_play : Color

/-- One inference output (`Model::Output` of the absent `cc/model/model.h`):
a policy distribution indexed by board position and a scalar value estimate. -/
structure Output (n : Nat) where
  policy : Fin n → Fin n → ℚ
  value : ℚ

/-- A `BoardFeatures` tensor in grid form: the `kNumStoneFeatures`-long
feature vector of each cell. -/
abbrev FeatureGrid (n : Nat) := Fin n → Fin n → List ℚ

/-- The grid form of `DualNet.SetFeatures` for one input position. -/
def encodeGrid {n : Nat} (history : List (Board n)) (to_play : Color) :
    FeatureGrid n :=
  fun i j => stoneFeatures history to_play i j

/-- The backend inference primitive (`DualNet::RunManyImpl`, supplied by a
concrete subclass outside this core): it receives the whole batch of feature
tensors and either fails with a backend-specific error message or returns one
raw output per tensor, in order, together with the backend's self-reported
model name. -/
abbrev Backend (n : Nat) := List (FeatureGrid n) → Except String (List (Output n) × String)

/-- How one `RunMany` call can fail: a batch-size mismatch between request and
backend response is the fatal contract violation, and a backend-specific
failure propagates as a distinct, named alternative. -/
inductive RunError
  | contractViolation
  | backendFailure (msg : String)
deriving DecidableEq, Repr

/-- The state a `DualNet` instance owns across `RunMany` calls: the model
name, the `random_symmetry_` flag fixed at construction (a `const` member in
the header), and the instance's generator `rnd_`. -/
structure DualNet where
  name : String
  random_symmetry_ : Bool
  rnd_ : Random
deriving DecidableEq, Repr

/-- The constructor `DualNet::DualNet(name, random_symmetry, random_seed)`:
the generator is built from the given seed (`entropy` stands for the platform
entropy source consulted only for the reserved zero seed). -/
def DualNet.create (name : String) (random_symmetry : Bool)
    (random_seed entropy : Nat) : DualNet :=
  ⟨name, random_symmetry, Random.create random_seed entropy⟩

/-- The symmetry a `RunMany` call uses for its whole batch: one value drawn
from the instance's generator when `random_symmetry_` is set, the identity
otherwise. -/
def DualNet.chosenSymmetry (net : DualNet) : symmetry.Symmetry :=
  if net.random_symmetry_ then symmetry.ofNat net.rnd_.next.1
  else symmetry.Symmetry.kIdentity

/-- The instance's generator after one `RunMany` call: advanced by exactly the
one draw that selected the symmetry, and untouched when randomization is
disabled. -/
def DualNet.rndAfterRun (net : DualNet) : Random :=
  if net.random_symmetry_ then net.rnd_.next.2 else net.rnd_

/-- The feature batch handed to the backend: every input encoded, with the one
batch-wide chosen symmetry applied identically to every encoded tensor. -/
def DualNet.batchFeatures {n : Nat} (net : DualNet) (inputs : List (Input n)) :
    List (FeatureGrid n) :=
  inputs.map (fun inp =>
    symmetry.ApplySymmetry net.chosenSymmetry (encodeGrid inp.history inp.to_play))

/-- Everything one `RunMany` call produces: the outcome (outputs plus the
backend's model name, or a failure), the `symmetries_used_` buffer, the
`features_` buffer as handed to the backend, and the instance state after the
call. -/
structure RunResult (n : Nat) where
  outcome : Except RunError (List (Output n) × String)
  symmetries_used_ : List symmetry.Symmetry
  features_ : List (FeatureGrid n)
  post : DualNet

/-- Modelled from the spec: `DualNet::RunMany` (body in the absent
`dual_net.cc`).  Steps: encode every input, draw one batch-wide symmetry when
enabled and apply it to every tensor, delegate the whole batch to the backend
once, then — if the backend returned exactly one raw output per input — invert
the same symmetry on every output's policy and return the outputs in order;
a backend output count different from the input count is the fatal contract
violation, and a backend error propagates unmodified as a distinct failure.
No partial results exist in either failure case. -/
def DualNet.runOutcome {n : Nat} (net : DualNet) (backend : Backend n)
    (inputs : List (Input n)) : Except RunError (List (Output n) × String) :=
  match backend (net.batchFeatures inputs) with
  | Except.error e => Except.error (RunError.backendFailure e)
  | Except.ok (raw, model_name) =>
    if raw.length = inputs.length then
      Except.ok (raw.map (fun o =>
        ⟨symmetry.InvertSymmetry net.chosenSymmetry o.policy, o.value⟩), model_name)
    else
      Except.error RunError.contractViolation

/-- Modelled from the spec: the full observable effect of one
`DualNet::RunMany` call — the outcome above, the one chosen symmetry recorded
once per input in `symmetries_used_`, the transformed feature batch in
`features_`, and the instance state after the call, its generator advanced by
the call's single draw. -/
def DualNet.RunMany {n : Nat} (net : DualNet) (backend : Backend n)
    (inputs : List (Input n)) : RunResult n :=
  ⟨net.runOutcome backend inputs,
   List.replicate inputs.length net.chosenSymmetry,
   net.batchFeatures inputs,
   ⟨net.name, net.random_symmetry_, net.rndAfterRun⟩⟩

/-- The state a `DualNetFactory` owns: the `random_symmetry_` flag fixed at
construction (a `const` member in the header) and the mutex-guarded seed
generator, modelled per the design notes as a base seed plus the count of
seeds already handed out — the mutex serializes concurrent `GetModelSeed`
calls into successive draws of this sequential state. -/
structure DualNetFactory where
  random_symmetry_ : Bool
  base_seed : Nat
  calls : Nat
deriving DecidableEq, Repr

/-- The constructor `DualNetFactory::DualNetFactory(random_symmetry,
random_seed)`: the guarded generator starts from the given seed (zero draws
from platform entropy, modelled by the explicit `entropy` argument). -/
def DualNetFactory.create (random_symmetry : Bool) (random_seed entropy : Nat) :
    DualNetFactory :=
  ⟨random_symmetry, (Random.create random_seed entropy).state, 0⟩

/-- The accessor `DualNetFactory::random_symmetry()` from the header: returns
the flag member. -/
def DualNetFactory.random_symmetry (f : DualNetFactory) : Bool :=
  f.random_symmetry_

/-- Modelled from the spec: `DualNetFactory::GetModelSeed` (body in the absent
`dual_net.cc`).  Under the mutex it draws the next value of the guarded
generator — modelled, as the design notes sanction, as a counter-derived
sequence `base_seed + calls` reduced to 64 bits — and returns it as a fresh
model seed. -/
def DualNetFactory.GetModelSeed (f : DualNetFactory) : Nat × DualNetFactory :=
  ((f.base_seed + f.calls) % 2 ^ 64, ⟨f.random_symmetry_, f.base_seed, f.calls + 1⟩)

/-- The seeds handed out by `N` successive (mutex-serialized) `GetModelSeed`
calls, together with the factory state after them. -/
def DualNetFactory.drawSeeds : DualNetFactory → Nat → List Nat × DualNetFactory
  | f, 0 => ([], f)
  | f, Nat.succ k =>
    let r := f.GetModelSeed
    let rest := r.2.drawSeeds k
    (r.1 :: rest.1, rest.2)

/-! Helper lemmas. -/

theorem flatten_map_getD {α : Type} (f : α → List ℚ) (m : Nat)
    (hm : ∀ a, (f a).length = m) :
    ∀ (l : List α) (c k : Nat) (hc : c < l.length), k < m →
      ((l.map f).flatten).getD (c * m + k) 0 = (f (l.get ⟨c, hc⟩)).getD k 0 := by
  intro l
  induction l with
  | nil => intro c k hc _; exact absurd hc (Nat.not_lt_zero c)
  | cons a l ih =>
    intro c k hc hk
    cases c with
    | zero =>
      simp only [List.map_cons, List.flatten_cons, Nat.zero_mul, Nat.zero_add]
      rw [List.getD_append _ _ _ _ (by rw [hm a]; exact hk)]
      rfl
    | succ c =>
      simp only [List.map_cons, List.flatten_cons]
      have hidx : (c + 1) * m + k = m + (c * m + k) := by
        rw [Nat.succ_mul]; omega
      rw [hidx, List.getD_append_right _ _ _ _ (by rw [hm a]; exact Nat.le_add_right m _)]
      rw [hm a, Nat.add_sub_cancel_left]
      exact ih c k (Nat.lt_of_succ_lt_succ hc) hk

theorem stoneHistory_length {n : Nat} (history : List (Board n)) (to_play : Color)
    (i j : Fin n) :
    ((List.range DualNet.kMoveHistory).map (stonePair history to_play i j)).flatten.length
      = 2 * DualNet.kMoveHistory := by
  simp [List.length_flatten, List.map_map, Function.comp_def, stonePair,
    List.map_const', List.sum_replicate, smul_eq_mul, Nat.mul_comm]

theorem getD_replicate_self {α : Type} (d : α) :
    ∀ (k t : Nat), (List.replicate k d).getD t d = d := by
  intro k
  induction k with
  | zero => intro t; rfl
  | succ k ih =>
    intro t
    cases t with
    | zero => rfl
    | succ t =>
      rw [List.replicate_succ, List.getD_cons_succ]
      exact ih t

theorem getD_append_replicate {α : Type} (d : α) (l : List α) (k : Nat) :
    ∀ t : Nat, (l ++ List.replicate k d).getD t d = l.getD t d := by
  induction l with
  | nil => intro t; rw [List.nil_append, getD_replicate_self, List.getD_nil]
  | cons a l ih =>
    intro t
    cases t with
    | zero => rfl
    | succ t =>
      rw [List.cons_append, List.getD_cons_succ, List.getD_cons_succ]
      exact ih t

theorem boardAt_pad {n : Nat} (history : List (Board n)) (k t : Nat) :
    boardAt (history ++ List.replicate k (emptyBoard n)) t = boardAt history t :=
  getD_append_replicate (emptyBoard n) history k t

theorem stonePair_pad {n : Nat} (history : List (Board n)) (to_play : Color)
    (k : Nat) (i j : Fin n) (t : Nat) :
    stonePair (history ++ List.replicate k (emptyBoard n)) to_play i j t
      = stonePair history to_play i j t := by
  simp [stonePair, boardAt_pad]

theorem stoneFeatures_pad {n : Nat} (history : List (Board n)) (to_play : Color)
    (k : Nat) (i j : Fin n) :
    stoneFeatures (history ++ List.replicate k (emptyBoard n)) to_play i j
      = stoneFeatures history to_play i j := by
  have h : ∀ t ∈ List.range DualNet.kMoveHistory,
      stonePair (history ++ List.replicate k (emptyBoard n)) to_play i j t
        = stonePair history to_play i j t :=
    fun t _ => stonePair_pad history to_play k i j t
  simp [stoneFeatures, List.map_congr_left h]

theorem drawSeeds_fst :
    ∀ (N : Nat) (f : DualNetFactory), (f.drawSeeds N).1
      = (List.range N).map (fun i => (f.base_seed + f.calls + i) % 2 ^ 64) := by
  intro N
  induction N with
  | zero => intro f; rfl
  | succ k ih =>
    intro f
    have h2 : (f.GetModelSeed.2).base_seed = f.base_seed := rfl
    have h3 : (f.GetModelSeed.2).calls = f.calls + 1 := rfl
    show f.GetModelSeed.1 :: ((f.GetModelSeed.2).drawSeeds k).1 = _
    rw [ih, h2, h3, List.range_succ_eq_map, List.map_cons, List.map_map]
    congr 1
    apply List.map_congr_left
    intro a _
    show (f.base_seed + (f.calls + 1) + a) % 2 ^ 64
      = (f.base_seed + f.calls + (a + 1)) % 2 ^ 64
    omega

theorem drawSeeds_preserves_flag :
    ∀ (N : Nat) (f : DualNetFactory),
      ((f.drawSeeds N).2).random_symmetry_ = f.random_symmetry_ := by
  intro N
  induction N with
  | zero => intro f; rfl
  | succ k ih => intro f; exact ih f.GetModelSeed.2

theorem batchFeatures_eq_of_sym {n : Nat} (net₁ net₂ : DualNet)
    (inputs : List (Input n)) (hsym : net₁.chosenSymmetry = net₂.chosenSymmetry) :
    net₁.batchFeatures inputs = net₂.batchFeatures inputs := by
  simp [DualNet.batchFeatures, hsym]

theorem runOutcome_congr {n : Nat} (net₁ net₂ : DualNet) (backend : Backend n)
    (inputs : List (Input n)) (hsym : net₁.chosenSymmetry = net₂.chosenSymmetry) :
    net₁.runOutcome backend inputs = net₂.runOutcome backend inputs := by
  have hb := batchFeatures_eq_of_sym net₁ net₂ inputs hsym
  simp [DualNet.runOutcome, hb, hsym]

/-! Concrete fixtures used by the witness theorems. -/

/-- A concrete 3 × 3 board with one black stone in the corner. -/
def boardW : Board 3 := fun i j => if i = 0 ∧ j = 0 then some Color.black else none

/-- A concrete two-input batch. -/
def inputsW : List (Input 3) := [⟨[boardW], Color.black⟩, ⟨[], Color.white⟩]

/-- A well-behaved backend: one output per tensor, in order. -/
def backendOkW : Backend 3 :=
  fun feats => Except.ok (feats.map (fun _ => ⟨fun _ _ => 0, 0⟩), "modelW")

/-- A backend that breaks the batch contract by answering with no outputs. -/
def backendShortW : Backend 3 := fun _ => Except.ok ([], "modelW")

/-- A backend that fails with a backend-specific error. -/
def backendErrW : Backend 3 := fun _ => Except.error "device failure"

/-- An instance with symmetry randomization enabled. -/
def netraW : DualNet := DualNet.create "netA" true 7 0

/-- An instance with symmetry randomization disabled. -/
def netdW : DualNet := DualNet.create "netB" false 7 0

/-- A concrete factory. -/
def factoryW : DualNetFactory := DualNetFactory.create true 5 0

/-! Claim theorems. -/

/-- C5: for every symmetry `s` in the fixed finite set (including the
identity) and every policy output `x`, applying `s` and then inverting `s`
yields `x` unchanged: `Invert(Apply(x, s), s) = x`. -/
theorem claim_C5_symmetry_roundtrip {n : Nat} {α : Type} (s : symmetry.Symmetry)
    (x : Fin n → Fin n → α) :
    symmetry.InvertSymmetry s (symmetry.ApplySymmetry s x) = x := by
  funext i j
  cases s <;>
    simp [symmetry.InvertSymmetry, symmetry.ApplySymmetry, symmetry.inverse,
      symmetry.coordT, Fin.rev_rev]

/-- C1: with symmetry randomization enabled, a `RunMany` call draws exactly one
symmetry with the instance's generator and uses it for the whole batch: the
`symmetries_used_` buffer holds that one symmetry once per input, every encoded
position has that same symmetry applied, and the instance's generator advances
by exactly one draw, regardless of batch size. -/
theorem claim_C1_single_symmetry_per_batch {n : Nat} (net : DualNet)
    (backend : Backend n) (inputs : List (Input n))
    (h : net.random_symmetry_ = true) :
    (net.RunMany backend inputs).symmetries_used_
        = List.replicate inputs.length (symmetry.ofNat net.rnd_.next.1)
      ∧ (net.RunMany backend inputs).features_
        = inputs.map (fun inp =>
            symmetry.ApplySymmetry (symmetry.ofNat net.rnd_.next.1)
              (encodeGrid inp.history inp.to_play))
      ∧ (net.RunMany backend inputs).post.rnd_ = net.rnd_.next.2 := by
  refine ⟨?_, ?_, ?_⟩ <;>
    simp [DualNet.RunMany, DualNet.chosenSymmetry, DualNet.rndAfterRun,
      DualNet.batchFeatures, h]

/-- Witness for C1 at a concrete instance, backend and two-input batch. -/
theorem claim_C1_witness :
    (netraW.RunMany backendOkW inputsW).post.rnd_ = netraW.rnd_.next.2 :=
  (claim_C1_single_symmetry_per_batch netraW backendOkW inputsW rfl).2.2

/-- C10: the symmetry-randomization flag of the factory and of each instance is
fixed at construction: the constructors store the supplied value, the factory
accessor returns it, and neither `RunMany` nor `GetModelSeed` (nor any number
of seed draws) changes it. -/
theorem claim_C10_random_symmetry_immutable {n : Nat} (rs : Bool)
    (seed entropy : Nat) (nm : String) (net : DualNet) (backend : Backend n)
    (inputs : List (Input n)) (f : DualNetFactory) (N : Nat) :
    (DualNetFactory.create rs seed entropy).random_symmetry = rs
      ∧ (DualNet.create nm rs seed entropy).random_symmetry_ = rs
      ∧ (net.RunMany backend inputs).post.random_symmetry_ = net.random_symmetry_
      ∧ f.GetModelSeed.2.random_symmetry = f.random_symmetry
      ∧ ((f.drawSeeds N).2).random_symmetry = f.random_symmetry :=
  ⟨rfl, rfl, rfl, rfl, drawSeeds_preserves_flag N f⟩

/-- C4: two evaluator instances constructed with the same explicit non-zero
seed and with symmetry randomization disabled produce, on the same inputs,
identical feature batches and identical outcomes (the entropy source and the
instance names are irrelevant); and two generators constructed from the same
explicit non-zero seed produce identical draw streams. -/
theorem claim_C4_same_seed_reproducible {n : Nat} (seed e₁ e₂ : Nat)
    (h : seed ≠ 0) (nm₁ nm₂ : String) (backend : Backend n)
    (inputs : List (Input n)) :
    (∀ k, (Random.create seed e₁).stream k = (Random.create seed e₂).stream k)
      ∧ (DualNet.create nm₁ false seed e₁).batchFeatures inputs
        = (DualNet.create nm₂ false seed e₂).batchFeatures inputs
      ∧ ((DualNet.create nm₁ false seed e₁).RunMany backend inputs).outcome
        = ((DualNet.create nm₂ false seed e₂).RunMany backend inputs).outcome := by
  have hr : Random.create seed e₁ = Random.create seed e₂ := by
    simp [Random.create, h]
  have hsym : (DualNet.create nm₁ false seed e₁).chosenSymmetry
      = (DualNet.create nm₂ false seed e₂).chosenSymmetry := by
    simp [DualNet.create, DualNet.chosenSymmetry]
  exact ⟨fun k => by rw [hr],
    batchFeatures_eq_of_sym _ _ inputs hsym,
    runOutcome_congr _ _ backend inputs hsym⟩

/-- Witness for C4 at seed 42 with two different entropy values and names. -/
theorem claim_C4_witness :
    ((DualNet.create "netA" false 42 0).RunMany backendOkW inputsW).outcome
      = ((DualNet.create "netB" false 42 99).RunMany backendOkW inputsW).outcome :=
  (claim_C4_same_seed_reproducible 42 0 99 (by decide) "netA" "netB"
    backendOkW inputsW).2.2

/-- C2: for one factory, successive (mutex-serialized) `GetModelSeed` draws
never repeat: any `N ≤ 2 ^ 64` seeds handed out are pairwise distinct. -/
theorem claim_C2_seeds_distinct (f : DualNetFactory) (N : Nat)
    (h : N ≤ 2 ^ 64) : ((f.drawSeeds N).1).Nodup := by
  rw [drawSeeds_fst]
  apply List.Nodup.map_on
  · intro x hx y hy hxy
    rw [List.mem_range] at hx hy
    have hx' : x < 2 ^ 64 := lt_of_lt_of_le hx h
    have hy' : y < 2 ^ 64 := lt_of_lt_of_le hy h
    omega
  · exact List.nodup_range N

/-- Witness for C2: three draws from a concrete factory are pairwise
distinct. -/
theorem claim_C2_witness : ((factoryW.drawSeeds 3).1).Nodup :=
  claim_C2_seeds_distinct factoryW 3 (by norm_num)

/-- C3: a `RunMany` call is all-or-nothing with outputs matching the inputs in
number and order.  If the backend errs, that error propagates unmodified as a
backend failure, which is distinct from the contract violation; if the backend
returns exactly one raw output per input, the call succeeds with the outputs
derived from the raw outputs in order (hence of the same length as the
inputs); if the backend returns any other number of outputs, the whole call
fails with the contract violation and no outputs at all. -/
theorem claim_C3_output_contract {n : Nat} (net : DualNet) (backend : Backend n)
    (inputs : List (Input n)) :
    (∀ e, backend (net.batchFeatures inputs) = Except.error e →
        (net.RunMany backend inputs).outcome
          = Except.error (RunError.backendFailure e)
        ∧ RunError.backendFailure e ≠ RunError.contractViolation)
      ∧ (∀ raw model_name,
          backend (net.batchFeatures inputs) = Except.ok (raw, model_name) →
          (raw.length = inputs.length →
            (net.RunMany backend inputs).outcome
              = Except.ok (raw.map (fun o =>
                  ⟨symmetry.InvertSymmetry net.chosenSymmetry o.policy,
                   o.value⟩), model_name)
            ∧ (raw.map (fun o : Output n =>
                (⟨symmetry.InvertSymmetry net.chosenSymmetry o.policy,
                  o.value⟩ : Output n))).length = inputs.length)
          ∧ (raw.length ≠ inputs.length →
            (net.RunMany backend inputs).outcome
              = Except.error RunError.contractViolation)) := by
  constructor
  · intro e he
    constructor
    · simp [DualNet.RunMany, DualNet.runOutcome, he]
    · intro hcontra; cases hcontra
  · intro raw model_name hok
    constructor
    · intro hlen
      constructor
      · simp [DualNet.RunMany, DualNet.runOutcome, hok, hlen]
      · rw [List.length_map, hlen]
    · intro hne
      simp [DualNet.RunMany, DualNet.runOutcome, hok, hne]

/-- Witness for C3: a backend that answers a two-input batch with zero outputs
makes the call fail with the contract violation. -/
theorem claim_C3_witness :
    (netdW.RunMany backendShortW inputsW).outcome
      = Except.error RunError.contractViolation :=
  ((claim_C3_output_contract netdW backendShortW inputsW).2 [] "modelW"
    rfl).2 (by decide)

theorem stoneFeatures_player {n : Nat} (history : List (Board n))
    (to_play : Color) (i j : Fin n) :
    (stoneFeatures history to_play i j).getD DualNet.kPlayerFeature 0
      = if to_play = Color.black then 1 else 0 := by
  have hl := stoneHistory_length history to_play i j
  rw [stoneFeatures, List.getD_append_right _ _ _ _ (by rw [hl]; decide), hl]
  rfl

/-- C6: for every history window and colour to play, the trailing per-cell
scalar of the encoded tensor — the `kPlayerFeature` slot of every cell — is
1 exactly when black is to play and 0 otherwise, identically at every cell. -/
theorem claim_C6_player_channel {n : Nat} (history : List (Board n))
    (to_play : Color) (c : Nat) (hc : c < n * n) :
    (DualNet.SetFeatures history to_play).getD
        (c * DualNet.kNumStoneFeatures + DualNet.kPlayerFeature) 0
      = if to_play = Color.black then 1 else 0 := by
  have hc' : c < (cellList n).length := by rw [cellList_length]; exact hc
  have hms : ∀ p : Fin n × Fin n,
      ((fun p : Fin n × Fin n => stoneFeatures history to_play p.1 p.2) p).length
        = DualNet.kNumStoneFeatures :=
    fun p => stoneFeatures_length history to_play p.1 p.2
  have key := flatten_map_getD
    (fun p : Fin n × Fin n => stoneFeatures history to_play p.1 p.2)
    DualNet.kNumStoneFeatures hms (cellList n) c DualNet.kPlayerFeature hc'
    (by decide)
  rw [DualNet.SetFeatures, key]
  exact stoneFeatures_player history to_play _ _

/-- Witness for C6 at a concrete board, black to play, and cell 5 of the
3 × 3 board. -/
theorem claim_C6_witness :
    (DualNet.SetFeatures [boardW] Color.black).getD
        (5 * DualNet.kNumStoneFeatures + DualNet.kPlayerFeature) 0
      = if Color.black = Color.black then (1 : ℚ) else 0 :=
  claim_C6_player_channel [boardW] Color.black 5 (by decide)

theorem stoneFeatures_getD_slot {n : Nat} (history : List (Board n))
    (to_play : Color) (i j : Fin n) (t k : Nat)
    (ht : t < DualNet.kMoveHistory) (hk : k < 2) :
    (stoneFeatures history to_play i j).getD (t * 2 + k) 0
      = (stonePair history to_play i j t).getD k 0 := by
  have hl := stoneHistory_length history to_play i j
  have hidx : t * 2 + k
      < ((List.range DualNet.kMoveHistory).map
          (stonePair history to_play i j)).flatten.length := by
    rw [hl]; omega
  rw [stoneFeatures, List.getD_append _ _ _ _ hidx]
  have ht' : t < (List.range DualNet.kMoveHistory).length := by
    rw [List.length_range]; exact ht
  have key := flatten_map_getD (stonePair history to_play i j) 2
    (stonePair_length history to_play i j) (List.range DualNet.kMoveHistory)
    t k ht' hk
  rw [key, List.get_range]

/-- C7: in every cell and every one of the `kMoveHistory` history slots, the
emitted mine/opponent indicator pair is mutually exclusive — never both 1 —
and both indicators are 0 when the cell is empty in that slot. -/
theorem claim_C7_mine_opp_exclusive {n : Nat} (history : List (Board n))
    (to_play : Color) (i j : Fin n) (t : Nat) (ht : t < DualNet.kMoveHistory) :
    ¬((stoneFeatures history to_play i j).getD (2 * t) 0 = 1
        ∧ (stoneFeatures history to_play i j).getD (2 * t + 1) 0 = 1)
      ∧ (boardAt history t i j = none →
          (stoneFeatures history to_play i j).getD (2 * t) 0 = 0
            ∧ (stoneFeatures history to_play i j).getD (2 * t + 1) 0 = 0) := by
  have e0 : (stoneFeatures history to_play i j).getD (2 * t) 0
      = (stonePair history to_play i j t).getD 0 0 := by
    rw [Nat.mul_comm]
    exact stoneFeatures_getD_slot history to_play i j t 0 ht (by decide)
  have e1 : (stoneFeatures history to_play i j).getD (2 * t + 1) 0
      = (stonePair history to_play i j t).getD 1 0 := by
    rw [Nat.mul_comm 2 t]
    exact stoneFeatures_getD_slot history to_play i j t 1 ht (by decide)
  rw [e0, e1]
  constructor
  · rintro ⟨h1, h2⟩
    rcases hcell : boardAt history t i j with _ | c
    · rw [show (stonePair history to_play i j t).getD 0 0
          = if boardAt history t i j = some to_play then 1 else 0 from rfl,
        hcell] at h1
      simp at h1
    · cases c <;> cases to_play <;>
        simp [stonePair, hcell, Color.opponent] at h1 h2
  · intro hcell
    constructor <;> simp [stonePair, hcell]

/-- Witness for C7 at a concrete board, slot 0, cell (0, 1) (empty there). -/
theorem claim_C7_witness :
    ¬((stoneFeatures [boardW] Color.black 0 1).getD (2 * 0) 0 = 1
        ∧ (stoneFeatures [boardW] Color.black 0 1).getD (2 * 0 + 1) 0 = 1)
      ∧ (boardAt [boardW] 0 0 1 = none →
          (stoneFeatures [boardW] Color.black 0 1).getD (2 * 0) 0 = 0
            ∧ (stoneFeatures [boardW] Color.black 0 1).getD (2 * 0 + 1) 0 = 0) :=
  claim_C7_mine_opp_exclusive [boardW] Color.black 0 1 0 (by decide)

/-- C8: the encoded tensor always has length
`kNumBoardFeatures = BoardCellCount * kNumStoneFeatures`, where
`kNumStoneFeatures = 2 * kMoveHistory + 1` and `kMoveHistory = 8` (so 17
features per cell). -/
theorem claim_C8_feature_length {n : Nat} (history : List (Board n))
    (to_play : Color) :
    (DualNet.SetFeatures history to_play).length = DualNet.kNumBoardFeatures n
      ∧ DualNet.kNumBoardFeatures n = n * n * DualNet.kNumStoneFeatures
      ∧ DualNet.kNumStoneFeatures = 2 * DualNet.kMoveHistory + 1
      ∧ DualNet.kMoveHistory = 8 := by
  refine ⟨?_, rfl, rfl, rfl⟩
  simp [DualNet.SetFeatures, List.length_flatten, List.map_map,
    Function.comp_def, stoneFeatures_length, List.map_const',
    List.sum_replicate, smul_eq_mul, cellList_length,
    DualNet.kNumBoardFeatures, Nat.mul_comm]

/-- C9: a history window of between 1 and `kMoveHistory` snapshots encodes
exactly as its completion with all-empty older boards does; in particular the
game-start single-empty-board history encodes identically, for either colour,
to the fully padded all-empty history (the player channel being determined by
the colour alone). -/
theorem claim_C9_history_padding {n : Nat} (history : List (Board n))
    (to_play : Color) (h1 : 1 ≤ history.length)
    (h2 : history.length ≤ DualNet.kMoveHistory) :
    DualNet.SetFeatures (history
        ++ List.replicate (DualNet.kMoveHistory - history.length)
            (emptyBoard n)) to_play
      = DualNet.SetFeatures history to_play
      ∧ DualNet.SetFeatures [emptyBoard n] to_play
        = DualNet.SetFeatures
            (List.replicate DualNet.kMoveHistory (emptyBoard n)) to_play := by
  constructor
  · have h : ∀ p ∈ cellList n,
        stoneFeatures (history
            ++ List.replicate (DualNet.kMoveHistory - history.length)
                (emptyBoard n)) to_play p.1 p.2
          = stoneFeatures history to_play p.1 p.2 :=
      fun p _ => stoneFeatures_pad history to_play _ p.1 p.2
    simp [DualNet.SetFeatures, List.map_congr_left h]
  · have h8 : List.replicate DualNet.kMoveHistory (emptyBoard n)
        = [emptyBoard n]
          ++ List.replicate (DualNet.kMoveHistory - 1) (emptyBoard n) := rfl
    have h : ∀ p ∈ cellList n,
        stoneFeatures (emptyBoard n
            :: List.replicate (DualNet.kMoveHistory - 1) (emptyBoard n))
            to_play p.1 p.2
          = stoneFeatures [emptyBoard n] to_play p.1 p.2 :=
      fun p _ => stoneFeatures_pad [emptyBoard n] to_play _ p.1 p.2
    rw [h8]
    simp [DualNet.SetFeatures, List.map_congr_left h]

/-- Witness for C9 at a concrete single-snapshot history. -/
theorem claim_C9_witness :
    DualNet.SetFeatures ([boardW]
        ++ List.replicate (DualNet.kMoveHistory - List.length [boardW])
            (emptyBoard 3)) Color.white
      = DualNet.SetFeatures [boardW] Color.white :=
  (claim_C9_history_padding [boardW] Color.white (by decide) (by decide)).1

end minigo
